import Mathlib

/-!
Shallow embedding of the `notion_vocabulary` aggregation engine
(`src/notion_vocabulary/repository.py` and `src/notion_vocabulary/models.py`).

The MySQL store is modelled as an explicit in-memory state (`Store`): the
`words` and `contexts` tables are lists of rows, together with the
auto-increment counters of both tables.  Each `cursor.execute` of the
repository becomes one Lean function on `Store`; timestamps
(`datetime.utcnow()` / `CURRENT_TIMESTAMP`) are abstract `Nat` clock values
passed in explicitly, since no control flow depends on them.

MySQL semantics that matter here:
* `cursor.rowcount` after an `UPDATE` is the number of rows *changed*, not
  the number of rows matched, because `mysql.connector` does not set the
  `CLIENT_FOUND_ROWS` flag (and `DatabaseConfig.as_connector_kwargs` passes
  no `client_flags`).  For `frequency = frequency + 1` every matched row
  changes, so there matched = changed; for `SET status = %s` a matched row
  whose status already equals the new value is *not* counted.
* `connection.commit()` / `connection.rollback()` in the `_cursor` context
  manager: the committed state is the transaction state on success, and the
  original state when an exception escapes.
-/

namespace NotionVocab

/-- The `WordStatus` enum of `models.py`. -/
inductive WordStatus where
  | unmastered
  | learning
  | mastered
deriving DecidableEq, Repr

/-- A row of the `words` table (the `Word` dataclass of `models.py`).
Timestamps are abstract clock values. -/
structure Word where
  id : Nat
  word : String
  frequency : Nat
  status : WordStatus
  first_seen : Nat
  last_seen : Nat
deriving DecidableEq, Repr

/-- A row of the `contexts` table (the `Context` dataclass of `models.py`). -/
structure Context where
  id : Nat
  word_id : Nat
  sentence : String
deriving DecidableEq, Repr

/-- The `WordUpsertResult` dataclass of `models.py`. -/
structure WordUpsertResult where
  word : Word
  created : Bool
  context_inserted : Bool
  frequency_updated : Bool
deriving DecidableEq, Repr

/-- The database state: both tables plus their auto-increment counters. -/
structure Store where
  words : List Word
  contexts : List Context
  nextWordId : Nat
  nextContextId : Nat
deriving DecidableEq, Repr

/-- `SELECT id, ... FROM words WHERE word = %s` + `fetchone` (used by
`_upsert_word_with_context`, `get_word` and `update_word_status`). -/
def selectWordByLemma (s : Store) (w : String) : Option Word :=
  s.words.find? (fun r => r.word == w)

/-- `SELECT ... FROM words WHERE id = %s` + `fetchone`
(the post-mutation snapshot fetch of `_upsert_word_with_context`). -/
def selectWordById (s : Store) (word_id : Nat) : Option Word :=
  s.words.find? (fun r => r.id == word_id)

/-- `VocabularyRepository._insert_word`: `INSERT INTO words (word, frequency,
status, first_seen, last_seen) VALUES (%s, 1, 'unmastered', now, now)`;
returns the new state together with `cursor.lastrowid`. -/
def insert_word (s : Store) (w : String) (now : Nat) : Store × Nat :=
  let wid := s.nextWordId
  ({ s with
      words := s.words ++ [{ id := wid, word := w, frequency := 1,
                             status := WordStatus.unmastered,
                             first_seen := now, last_seen := now }],
      nextWordId := wid + 1 },
   wid)

/-- `VocabularyRepository._increment_frequency`: `UPDATE words SET
frequency = frequency + 1, last_seen = CURRENT_TIMESTAMP WHERE id = %s`;
returns the new state together with `cursor.rowcount`.  Every matched row
changes (its frequency strictly increases), so the changed-rows count MySQL
reports equals the matched-rows count. -/
def increment_frequency (s : Store) (word_id : Nat) (now : Nat) : Store × Nat :=
  ({ s with
      words := s.words.map (fun r =>
        if r.id == word_id then
          { r with frequency := r.frequency + 1, last_seen := now }
        else r) },
   (s.words.filter (fun r => r.id == word_id)).length)

/-- Modelled from the spec: the database schema (the `CREATE TABLE`
statements, which are not part of the checked-in sources) puts a unique
constraint on `contexts (word_id, sentence)` — "insert with
unique-constraint-based duplicate suppression on (word_id, sentence)".
`VocabularyRepository._insert_context` runs `INSERT IGNORE INTO contexts
(word_id, sentence) VALUES (%s, %s)` against that schema: a duplicate pair
is ignored with `cursor.rowcount = 0`, a novel pair is inserted with
`cursor.rowcount = 1`. -/
def insert_context (s : Store) (word_id : Nat) (sentence : String) : Store × Nat :=
  if s.contexts.any (fun c => c.word_id == word_id && c.sentence == sentence) then
    (s, 0)
  else
    ({ s with
        contexts := s.contexts ++ [{ id := s.nextContextId, word_id := word_id,
                                     sentence := sentence }],
        nextContextId := s.nextContextId + 1 },
     1)

/-- `VocabularyRepository._upsert_word_with_context` (one observation,
executed on an open cursor).  `none` models the defensive
`raise RuntimeError("Failed to fetch word after upsert operation")`. -/
def upsert_word_with_context_tx (s : Store) (word sentence : String) (now : Nat) :
    Option (Store × WordUpsertResult) :=
  let step :=
    match selectWordByLemma s word with
    | none =>
        let (s1, wid) := insert_word s word now
        (s1, wid, true, false)
    | some row =>
        let (s1, rc) := increment_frequency s row.id now
        (s1, row.id, false, decide (0 < rc))
  match step with
  | (s1, word_id, created, frequency_updated) =>
    let (s2, crc) := insert_context s1 word_id sentence
    match selectWordById s2 word_id with
    | none => none
    | some w =>
        some (s2, { word := w, created := created,
                    context_inserted := decide (0 < crc),
                    frequency_updated := frequency_updated })

/-- Errors escaping a repository call: the defensive `RuntimeError` of
`_upsert_word_with_context`, and a store failure
(`mysql.connector` exception) raised while executing an observation. -/
inductive RepoError where
  | runtimeError
  | storeUnavailable
deriving DecidableEq, Repr

/-- The `for word, sentence in items` loop of
`upsert_many_words_with_context`, instrumented with an optional failure
schedule: `failAt = some i` makes the store raise while processing the
`i`-th observation (counting from 0), modelling a store failure mid-batch.
`failAt = none` is the failure-free run. -/
def upsertBatchRun : Store → List (String × String) → Nat → Option Nat →
    Except RepoError (Store × List WordUpsertResult)
  | s, [], _, _ => Except.ok (s, [])
  | s, (w, sen) :: rest, now, failAt =>
      if failAt = some 0 then Except.error RepoError.storeUnavailable
      else
        match upsert_word_with_context_tx s w sen now with
        | none => Except.error RepoError.runtimeError
        | some (s', r) =>
            match upsertBatchRun s' rest now (failAt.map (· - 1)) with
            | Except.error e => Except.error e
            | Except.ok (s'', rs) => Except.ok (s'', r :: rs)

/-- `VocabularyRepository.upsert_many_words_with_context`: the whole batch
runs inside one `_cursor` scope, so the committed state is the final
transaction state on success and the original state when an exception
escapes (`connection.rollback()` before the re-raise). -/
def upsert_many_words_with_context (s : Store) (items : List (String × String))
    (now : Nat) (failAt : Option Nat) :
    Store × Except RepoError (List WordUpsertResult) :=
  match upsertBatchRun s items now failAt with
  | Except.ok (s', rs) => (s', Except.ok rs)
  | Except.error e => (s, Except.error e)

/-- `VocabularyRepository.upsert_word_with_context`: one observation in its
own `_cursor` scope. -/
def upsert_word_with_context (s : Store) (word sentence : String) (now : Nat) :
    Store × Except RepoError WordUpsertResult :=
  match upsert_word_with_context_tx s word sentence now with
  | some (s', r) => (s', Except.ok r)
  | none => (s, Except.error RepoError.runtimeError)

/-- Effect of `UPDATE words SET status = %s WHERE word = %s` on the table:
every row whose `word` matches gets the new status. -/
def statusUpdatedStore (s : Store) (w : String) (status : WordStatus) : Store :=
  { s with words := s.words.map (fun r =>
      if r.word == w then { r with status := status } else r) }

/-- The `cursor.rowcount` MySQL reports for that `UPDATE`: the number of
*changed* rows (rows matched by `word` whose status actually differs),
because `mysql.connector` does not request `CLIENT_FOUND_ROWS`. -/
def statusChangedRows (s : Store) (w : String) (status : WordStatus) : Nat :=
  (s.words.filter (fun r => r.word == w && !(r.status == status))).length

/-- `VocabularyRepository.update_word_status`: run the `UPDATE`; if
`cursor.rowcount == 0` return `None`; otherwise re-select the row by lemma
and return it. -/
def update_word_status (s : Store) (w : String) (status : WordStatus) :
    Store × Option Word :=
  let s' : Store := statusUpdatedStore s w status
  if statusChangedRows s w status == 0 then (s', none)
  else (s', selectWordByLemma s' w)

/-- `WordWithContexts` aggregate of `models.py`. -/
structure WordWithContexts where
  word : Word
  contexts : List Context
deriving DecidableEq, Repr

/-- `WordWithContexts.add_context`: append the context unless one with the
same id is already present. -/
def WordWithContexts.add_context (a : WordWithContexts) (c : Context) :
    WordWithContexts :=
  if a.contexts.any (fun existing => existing.id == c.id) then a
  else { a with contexts := a.contexts ++ [c] }

/-- The stored frequency of a lemma, 0 when the lemma is absent. -/
def freqOf (s : Store) (w : String) : Nat :=
  (selectWordByLemma s w).elim 0 (fun r => r.frequency)

/-- Number of `contexts` rows carrying a given `(word_id, sentence)` pair. -/
def ctxCount (s : Store) (word_id : Nat) (sentence : String) : Nat :=
  (s.contexts.filter (fun c => c.word_id == word_id && c.sentence == sentence)).length

/-- The id of the `words` row a lookup of `w` resolves to, if any. -/
def widOf (s : Store) (w : String) : Option Nat :=
  (selectWordByLemma s w).map (fun r => r.id)

/-- No `contexts` row yet carries the pair the next upsert of
`(w, sentence)` will target: the existing word's id when `w` is present,
the id the insert will allocate when it is not. -/
def ctxFresh (s : Store) (w sentence : String) : Bool :=
  match selectWordByLemma s w with
  | some row => ctxCount s row.id sentence == 0
  | none => ctxCount s s.nextWordId sentence == 0

end NotionVocab

namespace NotionVocab

lemma insert_context_words (s : Store) (wid : Nat) (sen : String) :
    ((insert_context s wid sen).1).words = s.words := by
  unfold insert_context
  split <;> rfl

lemma selectWordById_insert_context (s : Store) (wid : Nat) (sen : String) (i : Nat) :
    selectWordById ((insert_context s wid sen).1) i = selectWordById s i := by
  unfold selectWordById
  rw [insert_context_words]

lemma upsert_tx_creates (s : Store) (w sen : String) (now : Nat)
    (h : selectWordByLemma s w = none) :
    ∃ u, upsert_word_with_context_tx s w sen now =
      some (((insert_context ((insert_word s w now).1) s.nextWordId sen)).1,
            { word := u, created := true,
              context_inserted :=
                decide (0 < ((insert_context ((insert_word s w now).1) s.nextWordId sen)).2),
              frequency_updated := false }) := by
  unfold upsert_word_with_context_tx
  rw [h]
  simp only
  have hsel : (selectWordById
      ((insert_context ((insert_word s w now).1) s.nextWordId sen).1) s.nextWordId).isSome := by
    rw [selectWordById_insert_context]
    unfold selectWordById insert_word
    rw [List.find?_isSome]
    refine ⟨_, List.mem_append_right _ (List.mem_singleton.mpr rfl), ?_⟩
    simp
  obtain ⟨u, hu⟩ := Option.isSome_iff_exists.mp hsel
  refine ⟨u, ?_⟩
  unfold insert_word at hu ⊢
  rw [hu]

lemma upsert_tx_increments (s : Store) (w sen : String) (now : Nat) (row : Word)
    (h : selectWordByLemma s w = some row) :
    ∃ u, upsert_word_with_context_tx s w sen now =
      some (((insert_context ((increment_frequency s row.id now).1) row.id sen)).1,
            { word := u, created := false,
              context_inserted :=
                decide (0 < ((insert_context ((increment_frequency s row.id now).1) row.id sen)).2),
              frequency_updated := true }) := by
  unfold upsert_word_with_context_tx
  rw [h]
  simp only
  have hrc : decide (0 < (increment_frequency s row.id now).2) = true := by
    have hm : row ∈ s.words := List.mem_of_find?_eq_some h
    have : row ∈ s.words.filter (fun r => r.id == row.id) :=
      List.mem_filter.mpr ⟨hm, by simp⟩
    have hlen : 0 < ((s.words.filter (fun r => r.id == row.id)).length) :=
      List.length_pos.mpr (List.ne_nil_of_mem this)
    simpa [increment_frequency] using hlen
  have hsel : (selectWordById
      ((insert_context ((increment_frequency s row.id now).1) row.id sen).1) row.id).isSome := by
    rw [selectWordById_insert_context]
    unfold selectWordById increment_frequency
    rw [List.find?_isSome]
    refine ⟨_, List.mem_map.mpr ⟨row, List.mem_of_find?_eq_some h, rfl⟩, ?_⟩
    simp
  obtain ⟨u, hu⟩ := Option.isSome_iff_exists.mp hsel
  refine ⟨u, ?_⟩
  rw [hu, hrc]

end NotionVocab

namespace NotionVocab

lemma freqOf_of_none (s : Store) (w : String) (h : selectWordByLemma s w = none) :
    freqOf s w = 0 := by
  unfold freqOf
  rw [h]
  rfl

lemma freqOf_of_some (s : Store) (w : String) (row : Word)
    (h : selectWordByLemma s w = some row) : freqOf s w = row.frequency := by
  unfold freqOf
  rw [h]
  rfl

lemma selectWordByLemma_after_create (s : Store) (w sen : String) (now : Nat) (i : Nat)
    (h : selectWordByLemma s w = none) :
    selectWordByLemma ((insert_context ((insert_word s w now).1) i sen).1) w =
      some { id := s.nextWordId, word := w, frequency := 1,
             status := WordStatus.unmastered, first_seen := now, last_seen := now } := by
  unfold selectWordByLemma at h ⊢
  rw [insert_context_words]
  unfold insert_word
  simp only
  rw [List.find?_append, h]
  simp

lemma selectWordByLemma_after_increment (s : Store) (w sen : String) (now : Nat)
    (i : Nat) (row : Word) (h : selectWordByLemma s w = some row) :
    selectWordByLemma ((insert_context ((increment_frequency s row.id now).1) i sen).1) w =
      some { row with frequency := row.frequency + 1, last_seen := now } := by
  unfold selectWordByLemma at h ⊢
  rw [insert_context_words]
  unfold increment_frequency
  simp only
  rw [List.find?_map]
  have hp : ((fun (r : Word) => r.word == w) ∘ (fun (r : Word) =>
      if r.id == row.id then { r with frequency := r.frequency + 1, last_seen := now }
      else r)) = (fun (r : Word) => r.word == w) := by
    funext x
    by_cases hx : (x.id == row.id) = true <;> simp [Function.comp, hx]
  rw [hp, h]
  simp

lemma freq_step (s : Store) (w sen : String) (now : Nat) :
    ∃ s' r, upsert_word_with_context_tx s w sen now = some (s', r) ∧
      r.created ≠ r.frequency_updated ∧ freqOf s' w = freqOf s w + 1 := by
  cases h : selectWordByLemma s w with
  | none =>
      obtain ⟨u, hu⟩ := upsert_tx_creates s w sen now h
      refine ⟨_, _, hu, by simp, ?_⟩
      rw [freqOf_of_none s w h,
        freqOf_of_some _ w _ (selectWordByLemma_after_create s w sen now s.nextWordId h)]
  | some row =>
      obtain ⟨u, hu⟩ := upsert_tx_increments s w sen now row h
      refine ⟨_, _, hu, by simp, ?_⟩
      rw [freqOf_of_some s w row h,
        freqOf_of_some _ w _ (selectWordByLemma_after_increment s w sen now row.id row h)]

end NotionVocab

namespace NotionVocab

lemma batch_run_none_ok (items : List (String × String)) : ∀ (s : Store) (now : Nat),
    ∃ s' rs, upsertBatchRun s items now none = Except.ok (s', rs) ∧
      rs.length = items.length ∧ ∀ r ∈ rs, r.created ≠ r.frequency_updated := by
  induction items with
  | nil => exact fun s now => ⟨s, [], rfl, rfl, by simp⟩
  | cons hd tl ih =>
      intro s now
      obtain ⟨w, sen⟩ := hd
      obtain ⟨s1, r, htx, hxor, -⟩ := freq_step s w sen now
      obtain ⟨s', rs, hrun, hlen, hall⟩ := ih s1 now
      refine ⟨s', r :: rs, ?_, by simp [hlen], ?_⟩
      · simp only [upsertBatchRun, htx, Option.map_none', hrun]
        simp
      · intro x hx
        rcases List.mem_cons.mp hx with hx | hx
        · exact hx ▸ hxor
        · exact hall x hx

lemma batch_freq (l : String) (sentences : List String) : ∀ (s : Store) (now : Nat),
    ∃ s' rs,
      upsertBatchRun s (sentences.map (fun sen => (l, sen))) now none = Except.ok (s', rs) ∧
      freqOf s' l = freqOf s l + sentences.length := by
  induction sentences with
  | nil => exact fun s now => ⟨s, [], rfl, by simp⟩
  | cons sen tl ih =>
      intro s now
      obtain ⟨s1, r, htx, -, hfreq⟩ := freq_step s l sen now
      obtain ⟨s', rs, hrun, hsum⟩ := ih s1 now
      refine ⟨s', r :: rs, ?_, ?_⟩
      · simp only [List.map_cons, upsertBatchRun, htx, Option.map_none', hrun]
        simp
      · rw [hsum, hfreq]
        simp only [List.length_cons]
        omega

lemma seq_freq (l : String) (sentences : List String) : ∀ (s : Store) (now : Nat),
    freqOf (sentences.foldl (fun st sen => (upsert_word_with_context st l sen now).1) s) l =
      freqOf s l + sentences.length := by
  induction sentences with
  | nil => exact fun s now => by simp
  | cons sen tl ih =>
      intro s now
      obtain ⟨s1, r, htx, -, hfreq⟩ := freq_step s l sen now
      have hone : (upsert_word_with_context s l sen now).1 = s1 := by
        simp only [upsert_word_with_context, htx]
      rw [List.foldl_cons, hone, ih s1 now, hfreq]
      simp only [List.length_cons]
      omega

lemma batch_run_fail (items : List (String × String)) : ∀ (s : Store) (now i : Nat),
    i < items.length →
    upsertBatchRun s items now (some i) = Except.error RepoError.storeUnavailable := by
  induction items with
  | nil => intro s now i hi; simp at hi
  | cons hd tl ih =>
      intro s now i hi
      obtain ⟨w, sen⟩ := hd
      cases i with
      | zero => simp [upsertBatchRun]
      | succ j =>
          obtain ⟨s1, r, htx, -, -⟩ := freq_step s w sen now
          have hj : j < tl.length := by simpa using hi
          simp only [upsertBatchRun, htx]
          rw [if_neg (by simp)]
          simp only [Option.map_some']
          have hred : (j + 1 - 1) = j := by omega
          rw [hred, ih s1 now j hj]

end NotionVocab

namespace NotionVocab

lemma insert_word_contexts (s : Store) (w : String) (now : Nat) :
    ((insert_word s w now).1).contexts = s.contexts := rfl

lemma insert_word_nextContextId (s : Store) (w : String) (now : Nat) :
    ((insert_word s w now).1).nextContextId = s.nextContextId := rfl

lemma increment_frequency_contexts (s : Store) (wid now : Nat) :
    ((increment_frequency s wid now).1).contexts = s.contexts := rfl

lemma increment_frequency_nextContextId (s : Store) (wid now : Nat) :
    ((increment_frequency s wid now).1).nextContextId = s.nextContextId := rfl

lemma ctxCount_congr (s t : Store) (wid : Nat) (sen : String)
    (h : s.contexts = t.contexts) : ctxCount s wid sen = ctxCount t wid sen := by
  unfold ctxCount
  rw [h]

lemma insert_context_dup (s : Store) (wid : Nat) (sen : String)
    (h : 0 < ctxCount s wid sen) : insert_context s wid sen = (s, 0) := by
  unfold insert_context
  rw [if_pos ?hc]
  case hc =>
    rw [List.any_eq_true]
    unfold ctxCount at h
    obtain ⟨c, hc⟩ := List.exists_mem_of_ne_nil _ (List.length_pos.mp h)
    exact ⟨c, List.mem_filter.mp hc |>.1, List.mem_filter.mp hc |>.2⟩

lemma insert_context_new (s : Store) (wid : Nat) (sen : String)
    (h : ctxCount s wid sen = 0) :
    insert_context s wid sen =
      ({ s with
          contexts := s.contexts ++ [Context.mk s.nextContextId wid sen],
          nextContextId := s.nextContextId + 1 }, 1) := by
  unfold insert_context
  rw [if_neg ?hc]
  case hc =>
    rw [Bool.not_eq_true, List.any_eq_false]
    unfold ctxCount at h
    intro c hc
    have := List.filter_eq_nil_iff.mp (List.length_eq_zero.mp h)
    exact fun hp => this c hc hp

lemma ctxCount_append_one (s : Store) (wid i : Nat) (sen : String) :
    ctxCount { s with
        contexts := s.contexts ++ [Context.mk i wid sen],
        nextContextId := s.nextContextId + 1 } wid sen
      = ctxCount s wid sen + 1 := by
  unfold ctxCount
  simp

end NotionVocab

namespace NotionVocab

lemma ctx_first (s : Store) (l sen : String) (now : Nat)
    (h : ctxFresh s l sen = true) :
    ∃ s' r wid, upsert_word_with_context_tx s l sen now = some (s', r) ∧
      r.context_inserted = true ∧ widOf s' l = some wid ∧ ctxCount s' wid sen = 1 ∧
      ∃ c ∈ s'.contexts, c.word_id = wid ∧ c.sentence = sen := by
  unfold ctxFresh at h
  cases hsel : selectWordByLemma s l with
  | none =>
      rw [hsel] at h
      have hzero : ctxCount s s.nextWordId sen = 0 := by
        simpa using h
      obtain ⟨u, hu⟩ := upsert_tx_creates s l sen now hsel
      have hz1 : ctxCount ((insert_word s l now).1) s.nextWordId sen = 0 := by
        rw [ctxCount_congr _ s _ _ (insert_word_contexts s l now)]
        exact hzero
      have hins := insert_context_new ((insert_word s l now).1) s.nextWordId sen hz1
      rw [hins] at hu
      refine ⟨_, _, s.nextWordId, hu, by simp, ?_, ?_, ?_⟩
      · have := selectWordByLemma_after_create s l sen now s.nextWordId hsel
        rw [hins] at this
        unfold widOf
        rw [this]
        rfl
      · rw [ctxCount_append_one, hz1]
      · refine ⟨Context.mk ((insert_word s l now).1).nextContextId s.nextWordId sen,
          List.mem_append_right _ (List.mem_singleton.mpr rfl), rfl, rfl⟩
  | some row =>
      rw [hsel] at h
      have hzero : ctxCount s row.id sen = 0 := by simpa using h
      obtain ⟨u, hu⟩ := upsert_tx_increments s l sen now row hsel
      have hz1 : ctxCount ((increment_frequency s row.id now).1) row.id sen = 0 := by
        rw [ctxCount_congr _ s _ _ (increment_frequency_contexts s row.id now)]
        exact hzero
      have hins := insert_context_new ((increment_frequency s row.id now).1) row.id sen hz1
      rw [hins] at hu
      refine ⟨_, _, row.id, hu, by simp, ?_, ?_, ?_⟩
      · have := selectWordByLemma_after_increment s l sen now row.id row hsel
        rw [hins] at this
        unfold widOf
        rw [this]
        rfl
      · rw [ctxCount_append_one, hz1]
      · exact ⟨Context.mk ((increment_frequency s row.id now).1).nextContextId row.id sen,
          List.mem_append_right _ (List.mem_singleton.mpr rfl), rfl, rfl⟩

lemma ctx_dup (s : Store) (l sen : String) (now : Nat) (wid : Nat)
    (hw : widOf s l = some wid) (hc : 0 < ctxCount s wid sen) :
    ∃ s' r, upsert_word_with_context_tx s l sen now = some (s', r) ∧
      r.context_inserted = false ∧ widOf s' l = some wid ∧
      ctxCount s' wid sen = ctxCount s wid sen := by
  unfold widOf at hw
  cases hsel : selectWordByLemma s l with
  | none => rw [hsel] at hw; simp at hw
  | some row =>
      rw [hsel] at hw
      have hwid : row.id = wid := by simpa using hw
      subst hwid
      obtain ⟨u, hu⟩ := upsert_tx_increments s l sen now row hsel
      have hc1 : 0 < ctxCount ((increment_frequency s row.id now).1) row.id sen := by
        rw [ctxCount_congr _ s _ _ (increment_frequency_contexts s row.id now)]
        exact hc
      have hins := insert_context_dup ((increment_frequency s row.id now).1) row.id sen hc1
      rw [hins] at hu
      refine ⟨_, _, hu, by simp, ?_, ?_⟩
      · have := selectWordByLemma_after_increment s l sen now row.id row hsel
        rw [hins] at this
        unfold widOf
        rw [this]
        rfl
      · rw [ctxCount_congr _ s _ _ (increment_frequency_contexts s row.id now)]

end NotionVocab

namespace NotionVocab

lemma ctx_dup_iter (M : Nat) : ∀ (s : Store) (l sen : String) (now wid : Nat),
    widOf s l = some wid → ctxCount s wid sen = 1 →
    ∃ s' rs, upsertBatchRun s (List.replicate M (l, sen)) now none = Except.ok (s', rs) ∧
      widOf s' l = some wid ∧ ctxCount s' wid sen = 1 ∧
      rs.map (fun r => r.context_inserted) = List.replicate M false := by
  induction M with
  | zero => exact fun s l sen now wid hw hc => ⟨s, [], rfl, hw, hc, rfl⟩
  | succ M ih =>
      intro s l sen now wid hw hc
      obtain ⟨s1, r, htx, hci, hw1, hc1⟩ := ctx_dup s l sen now wid hw (by omega)
      obtain ⟨s', rs, hrun, hw', hc', hmap⟩ := ih s1 l sen now wid hw1 (hc1.trans hc)
      refine ⟨s', r :: rs, ?_, hw', hc', ?_⟩
      · rw [List.replicate_succ]
        simp only [upsertBatchRun, htx, Option.map_none', hrun]
        simp
      · rw [List.replicate_succ, List.map_cons, hci, hmap]

/-- Exactly one Context row for a repeated pair; only the first upsert reports
`context_inserted`. -/
lemma ctx_batch (s : Store) (l sen : String) (now : Nat) (N : Nat)
    (hN : 0 < N) (h : ctxFresh s l sen = true) :
    ∃ s' rs wid, upsertBatchRun s (List.replicate N (l, sen)) now none = Except.ok (s', rs) ∧
      widOf s' l = some wid ∧ ctxCount s' wid sen = 1 ∧
      rs.map (fun r => r.context_inserted) = true :: List.replicate (N - 1) false := by
  obtain ⟨M, rfl⟩ : ∃ M, N = M + 1 := ⟨N - 1, by omega⟩
  obtain ⟨s1, r, wid, htx, hci, hw1, hc1, -⟩ := ctx_first s l sen now h
  obtain ⟨s', rs, hrun, hw', hc', hmap⟩ := ctx_dup_iter M s1 l sen now wid hw1 hc1
  refine ⟨s', r :: rs, wid, ?_, hw', hc', ?_⟩
  · rw [List.replicate_succ]
    simp only [upsertBatchRun, htx, Option.map_none', hrun]
    simp
  · rw [List.map_cons, hci, hmap]
    simp

end NotionVocab

namespace NotionVocab

end NotionVocab

namespace NotionVocab

lemma update_word_status_some_iff_aux (s : Store) (w : String) (st : WordStatus) :
    ((update_word_status s w st).2).isSome = true ↔
      ∃ r ∈ s.words, r.word = w ∧ r.status ≠ st := by
  unfold update_word_status
  by_cases hc : (statusChangedRows s w st == 0) = true
  · rw [if_pos hc]
    unfold statusChangedRows at hc
    rw [beq_iff_eq] at hc
    have hnone := List.filter_eq_nil_iff.mp (List.length_eq_zero.mp hc)
    simp only [Option.isSome_none, Bool.false_eq_true, false_iff]
    rintro ⟨r, hr, hrw, hrs⟩
    have := hnone r hr
    simp only [Bool.and_eq_true, beq_iff_eq, Bool.not_eq_true', beq_eq_false_iff_ne,
      ne_eq, not_and] at this
    exact (this hrw) hrs
  · rw [if_neg hc]
    unfold statusChangedRows at hc
    simp only [beq_iff_eq] at hc
    have hp : 0 < (s.words.filter (fun r => r.word == w && !(r.status == st))).length :=
      Nat.pos_of_ne_zero hc
    obtain ⟨c, hcmem⟩ := List.exists_mem_of_ne_nil _ (List.length_pos.mp hp)
    obtain ⟨hcm, hcp⟩ := List.mem_filter.mp hcmem
    simp only [Bool.and_eq_true, beq_iff_eq, Bool.not_eq_true', beq_eq_false_iff_ne] at hcp
    constructor
    · intro _
      exact ⟨c, hcm, hcp.1, hcp.2⟩
    · intro _
      unfold selectWordByLemma statusUpdatedStore
      rw [List.find?_isSome]
      refine ⟨_, List.mem_map.mpr ⟨c, hcm, rfl⟩, ?_⟩
      simp [hcp.1]

lemma filter_nontarget_map_status (w : String) (st : WordStatus) (l : List Word) :
    (l.map (fun r => if r.word == w then { r with status := st } else r)).filter
        (fun r => !(r.word == w)) =
      l.filter (fun r => !(r.word == w)) := by
  induction l with
  | nil => rfl
  | cons r tl ih =>
      by_cases hr : (r.word == w) = true
      · simp only [List.map_cons, List.filter_cons, hr, if_pos hr]
        simpa [hr] using ih
      · simp only [List.map_cons, List.filter_cons, hr, if_neg hr]
        simpa [hr] using ih

lemma update_word_status_frame_aux (s : Store) (w : String) (st : WordStatus) :
    ((update_word_status s w st).1).contexts = s.contexts ∧
    ((update_word_status s w st).1).nextWordId = s.nextWordId ∧
    ((update_word_status s w st).1).nextContextId = s.nextContextId ∧
    (((update_word_status s w st).1).words.map
        (fun r => (r.id, r.word, r.frequency, r.first_seen, r.last_seen)) =
      s.words.map (fun r => (r.id, r.word, r.frequency, r.first_seen, r.last_seen))) ∧
    ((update_word_status s w st).1).words.filter (fun r => !(r.word == w)) =
      s.words.filter (fun r => !(r.word == w)) := by
  have h1 : (update_word_status s w st).1 = statusUpdatedStore s w st := by
    unfold update_word_status
    split <;> rfl
  rw [h1]
  unfold statusUpdatedStore
  refine ⟨rfl, rfl, rfl, ?_, ?_⟩
  · simp only [List.map_map]
    refine List.map_congr_left ?_
    intro x _
    by_cases hx : (x.word == w) = true <;> simp [Function.comp, hx]
  · exact filter_nontarget_map_status w st s.words

end NotionVocab

namespace NotionVocab

lemma add_context_of_mem_id (a : WordWithContexts) (c : Context)
    (h : ∃ e ∈ a.contexts, e.id = c.id) : a.add_context c = a := by
  unfold WordWithContexts.add_context
  rw [if_pos]
  obtain ⟨e, he, hid⟩ := h
  rw [List.any_eq_true]
  exact ⟨e, he, by simpa using hid⟩

lemma add_context_pairwise (a : WordWithContexts) (c : Context)
    (h : a.contexts.Pairwise (fun x y => x.id ≠ y.id)) :
    ((a.add_context c).contexts).Pairwise (fun x y => x.id ≠ y.id) := by
  unfold WordWithContexts.add_context
  split
  · exact h
  · next hany =>
      rw [List.pairwise_append]
      refine ⟨h, List.pairwise_singleton _ _, ?_⟩
      intro e he y hy
      rw [List.mem_singleton] at hy
      have hfalse : (a.contexts.any (fun x => x.id == c.id)) = false :=
        Bool.eq_false_iff.mpr hany
      have hne := List.any_eq_false.mp hfalse e he
      rw [hy]
      simpa using hne

lemma foldl_add_context_pairwise (cs : List Context) : ∀ (a : WordWithContexts),
    a.contexts.Pairwise (fun x y => x.id ≠ y.id) →
    ((cs.foldl WordWithContexts.add_context a).contexts).Pairwise (fun x y => x.id ≠ y.id) := by
  induction cs with
  | nil => exact fun a h => h
  | cons c tl ih =>
      intro a h
      rw [List.foldl_cons]
      exact ih _ (add_context_pairwise a c h)

end NotionVocab

namespace NotionVocab

lemma upsert_tx_creates_words (s : Store) (w sen : String) (now : Nat)
    (h : selectWordByLemma s w = none) :
    ∃ s' r, upsert_word_with_context_tx s w sen now = some (s', r) ∧
      r.created = true ∧ r.frequency_updated = false ∧
      s'.words = s.words ++ [Word.mk s.nextWordId w 1 WordStatus.unmastered now now] := by
  obtain ⟨u, hu⟩ := upsert_tx_creates s w sen now h
  refine ⟨_, _, hu, rfl, rfl, ?_⟩
  rw [insert_context_words]
  rfl

end NotionVocab

namespace NotionVocab

/-- C1: for every observation processed by `_upsert_word_with_context` —
alone or as any element of a batch — exactly one of the outcome flags
`created` and `frequency_updated` is true (never both, never neither). -/
theorem created_xor_frequency_updated (s : Store) (w sen : String) (now : Nat)
    (items : List (String × String)) :
    (∃ s' r, upsert_word_with_context_tx s w sen now = some (s', r) ∧
      r.created ≠ r.frequency_updated) ∧
    (∃ s' rs, upsertBatchRun s items now none = Except.ok (s', rs) ∧
      ∀ r ∈ rs, r.created ≠ r.frequency_updated) := by
  constructor
  · obtain ⟨s', r, h, hx, -⟩ := freq_step s w sen now
    exact ⟨s', r, h, hx⟩
  · obtain ⟨s', rs, h, -, hall⟩ := batch_run_none_ok items s now
    exact ⟨s', rs, h, hall⟩

theorem created_xor_frequency_updated_witness :
    (∃ s' r, upsert_word_with_context_tx (Store.mk [] [] 1 1) "run" "I run fast." 0 =
        some (s', r) ∧ r.created ≠ r.frequency_updated) ∧
    (∃ s' rs, upsertBatchRun (Store.mk [] [] 1 1)
        [("cat", "A cat sat."), ("cat", "A cat sat.")] 0 none = Except.ok (s', rs) ∧
      ∀ r ∈ rs, r.created ≠ r.frequency_updated) :=
  created_xor_frequency_updated (Store.mk [] [] 1 1) "run" "I run fast." 0
    [("cat", "A cat sat."), ("cat", "A cat sat.")]

/-- C2: observing a lemma N times — as one batch, or as N sequential single
upserts — raises its stored frequency by exactly N, starting from 0 when the
lemma is absent (`freqOf` is 0 then, and 1 right after creation). -/
theorem frequency_adds_observation_count (s : Store) (l : String)
    (sentences : List String) (now : Nat) :
    (∃ s' rs, upsertBatchRun s (sentences.map (fun sen => (l, sen))) now none =
        Except.ok (s', rs) ∧ freqOf s' l = freqOf s l + sentences.length) ∧
    freqOf (sentences.foldl
        (fun st sen => (upsert_word_with_context st l sen now).1) s) l =
      freqOf s l + sentences.length :=
  ⟨batch_freq l sentences s now, seq_freq l sentences s now⟩

theorem frequency_adds_observation_count_witness :
    (∃ s' rs, upsertBatchRun (Store.mk [] [] 1 1)
        ((["I run fast.", "She runs daily.", "I run fast."].map
          (fun sen => ("run", sen)))) 0 none =
        Except.ok (s', rs) ∧
      freqOf s' "run" = freqOf (Store.mk [] [] 1 1) "run" + 3) ∧
    freqOf ((["I run fast.", "She runs daily.", "I run fast."].foldl
        (fun st sen => (upsert_word_with_context st "run" sen 0).1)
        (Store.mk [] [] 1 1))) "run" = freqOf (Store.mk [] [] 1 1) "run" + 3 :=
  frequency_adds_observation_count (Store.mk [] [] 1 1) "run"
    ["I run fast.", "She runs daily.", "I run fast."] 0

/-- C3: upserting the same (lemma, sentence) pair N > 1 times leaves exactly
one `contexts` row for that (word_id, sentence) pair, only the first upsert
reports `context_inserted = true`, the later ones report `false`, and no
error is raised. -/
theorem repeated_pair_single_context_row (s : Store) (l sen : String)
    (now N : Nat) (hN : 1 < N) (h : ctxFresh s l sen = true) :
    ∃ s' rs wid, upsertBatchRun s (List.replicate N (l, sen)) now none =
        Except.ok (s', rs) ∧
      widOf s' l = some wid ∧ ctxCount s' wid sen = 1 ∧
      rs.map (fun r => r.context_inserted) = true :: List.replicate (N - 1) false :=
  ctx_batch s l sen now N (by omega) h

theorem repeated_pair_single_context_row_witness :
    ∃ s' rs wid, upsertBatchRun (Store.mk [] [] 1 1)
        (List.replicate 3 ("run", "I run fast.")) 0 none = Except.ok (s', rs) ∧
      widOf s' "run" = some wid ∧ ctxCount s' wid "I run fast." = 1 ∧
      rs.map (fun r => r.context_inserted) = true :: List.replicate 2 false :=
  repeated_pair_single_context_row (Store.mk [] [] 1 1) "run" "I run fast." 0 3
    (by decide) (by decide)

/-- C4: a store failure while processing any observation of a batch makes
`upsert_many_words_with_context` roll the whole transaction back and
re-raise: the committed store is exactly the pre-batch store, so no Word or
Context row from the batch is persisted. -/
theorem batch_store_failure_rolls_back (s : Store) (items : List (String × String))
    (now i : Nat) (hi : i < items.length) :
    upsert_many_words_with_context s items now (some i) =
      (s, Except.error RepoError.storeUnavailable) := by
  unfold upsert_many_words_with_context
  rw [batch_run_fail items s now i hi]

theorem batch_store_failure_rolls_back_witness :
    upsert_many_words_with_context (Store.mk [] [] 1 1)
        [("cat", "A cat sat."), ("dog", "A dog ran.")] 0 (some 1) =
      (Store.mk [] [] 1 1, Except.error RepoError.storeUnavailable) :=
  batch_store_failure_rolls_back (Store.mk [] [] 1 1)
    [("cat", "A cat sat."), ("dog", "A dog ran.")] 0 1 (by decide)

end NotionVocab

namespace NotionVocab

/-- C5 counterexample: the store holds only the word "run"; upserting the
un-normalized lemma "Run" (whose lower-cased form is "run") does NOT behave
like upserting "run": it creates a second Word entry differing only in
case, because `_upsert_word_with_context` looks the lemma up verbatim. -/
theorem no_case_fold_counterexample :
    ((upsert_word_with_context_tx
        (Store.mk [Word.mk 1 "run" 1 WordStatus.unmastered 0 0] [] 2 1)
        "Run" "Running fast." 7).map
      (fun p => (p.2.created, p.1.words.map (fun r => r.word)))) =
      some (true, ["run", "Run"]) ∧
    ((upsert_word_with_context_tx
        (Store.mk [Word.mk 1 "run" 1 WordStatus.unmastered 0 0] [] 2 1)
        "run" "Running fast." 7).map
      (fun p => (p.2.created, p.1.words.map (fun r => r.word)))) =
      some (false, ["run"]) ∧
    String.mk ("Run".data.map Char.toLower) = "run" := by decide

/-- C5 (amended): `_upsert_word_with_context` performs no case folding — the
lemma is looked up verbatim, so a mixed-case lemma absent in its exact form
is inserted as a new Word entry even when its lower-cased form is already
stored (both entries coexist afterwards). -/
theorem verbatim_lookup_mixed_case_creates (s : Store) (l sen : String) (now : Nat)
    (habs : selectWordByLemma s l = none)
    (hlower : ∃ w ∈ s.words, w.word = String.mk (l.data.map Char.toLower))
    (_hmixed : String.mk (l.data.map Char.toLower) ≠ l) :
    ∃ s' r, upsert_word_with_context_tx s l sen now = some (s', r) ∧
      r.created = true ∧ (∃ w' ∈ s'.words, w'.word = l) ∧
      ∃ w ∈ s'.words, w.word = String.mk (l.data.map Char.toLower) := by
  obtain ⟨s', r, hu, hc, -, hw⟩ := upsert_tx_creates_words s l sen now habs
  obtain ⟨w0, hw0, hw0e⟩ := hlower
  refine ⟨s', r, hu, hc, ?_, ?_⟩
  · refine ⟨Word.mk s.nextWordId l 1 WordStatus.unmastered now now, ?_, rfl⟩
    rw [hw]
    exact List.mem_append_right _ (List.mem_singleton.mpr rfl)
  · refine ⟨w0, ?_, hw0e⟩
    rw [hw]
    exact List.mem_append_left _ hw0

theorem verbatim_lookup_mixed_case_creates_witness :
    ∃ s' r, upsert_word_with_context_tx
        (Store.mk [Word.mk 1 "run" 1 WordStatus.unmastered 0 0] [] 2 1)
        "Run" "Running fast." 7 = some (s', r) ∧
      r.created = true ∧ (∃ w' ∈ s'.words, w'.word = "Run") ∧
      ∃ w ∈ s'.words, w.word = String.mk ("Run".data.map Char.toLower) :=
  verbatim_lookup_mixed_case_creates
    (Store.mk [Word.mk 1 "run" 1 WordStatus.unmastered 0 0] [] 2 1)
    "Run" "Running fast." 7 (by decide) (by decide) (by decide)

/-- C6 counterexample: upserting the empty lemma on an empty store is not
rejected — it creates a Word row whose lemma is the empty string. -/
theorem empty_lemma_not_rejected_counterexample :
    ((upsert_word_with_context_tx (Store.mk [] [] 1 1) "" "Some sentence." 0).map
      (fun p => (p.2.created, p.1.words.map (fun r => r.word)))) = some (true, [""]) := by
  decide

/-- C6 (amended): `upsert_word_with_context` performs no input validation —
an empty lemma is processed like any other string, and when absent it is
inserted as a Word entry whose lemma is the empty string; rejection of blank
input is left to upstream layers. -/
theorem empty_lemma_upserted_verbatim (s : Store) (sen : String) (now : Nat)
    (habs : selectWordByLemma s "" = none) :
    ∃ s' r, upsert_word_with_context_tx s "" sen now = some (s', r) ∧
      r.created = true ∧ ∃ w ∈ s'.words, w.word = "" := by
  obtain ⟨s', r, hu, hc, -, hw⟩ := upsert_tx_creates_words s "" sen now habs
  refine ⟨s', r, hu, hc,
    Word.mk s.nextWordId "" 1 WordStatus.unmastered now now, ?_, rfl⟩
  rw [hw]
  exact List.mem_append_right _ (List.mem_singleton.mpr rfl)

theorem empty_lemma_upserted_verbatim_witness :
    ∃ s' r, upsert_word_with_context_tx (Store.mk [] [] 1 1) "" "Some sentence." 0 =
        some (s', r) ∧ r.created = true ∧ ∃ w ∈ s'.words, w.word = "" :=
  empty_lemma_upserted_verbatim (Store.mk [] [] 1 1) "Some sentence." 0 (by decide)

end NotionVocab

namespace NotionVocab

/-- C7 counterexample: "cat" is present in the store with status
`unmastered`; `update_word_status` to that same status returns `none`
anyway, because MySQL reports 0 changed rows for the `UPDATE`. -/
theorem set_status_same_value_returns_none_counterexample :
    ((update_word_status (Store.mk [Word.mk 1 "cat" 3 WordStatus.unmastered 0 0] [] 2 1)
        "cat" WordStatus.unmastered).2 = none) ∧
    Word.mk 1 "cat" 3 WordStatus.unmastered 0 0 ∈
      (Store.mk [Word.mk 1 "cat" 3 WordStatus.unmastered 0 0] [] 2 1).words := by decide

/-- C7 (amended): `update_word_status` returns a Word exactly when the store
holds a row for the lemma whose status *differs* from the requested one;
it returns `none` both when the lemma is absent and when every matching row
already carries the requested status (the `UPDATE` changes 0 rows then). -/
theorem update_word_status_some_iff (s : Store) (w : String) (st : WordStatus) :
    ((update_word_status s w st).2).isSome = true ↔
      ∃ r ∈ s.words, r.word = w ∧ r.status ≠ st :=
  update_word_status_some_iff_aux s w st

/-- C8: `update_word_status` only ever changes the targeted Word's `status`
field: every word's id, lemma, frequency, first_seen and last_seen are
unchanged (in order), every Word whose lemma differs from the target is
unchanged in all fields — status included — and the contexts table and both
auto-increment counters are untouched. -/
theorem update_word_status_frame (s : Store) (w : String) (st : WordStatus) :
    ((update_word_status s w st).1).contexts = s.contexts ∧
    ((update_word_status s w st).1).nextWordId = s.nextWordId ∧
    ((update_word_status s w st).1).nextContextId = s.nextContextId ∧
    (((update_word_status s w st).1).words.map
        (fun r => (r.id, r.word, r.frequency, r.first_seen, r.last_seen)) =
      s.words.map (fun r => (r.id, r.word, r.frequency, r.first_seen, r.last_seen))) ∧
    ((update_word_status s w st).1).words.filter (fun r => !(r.word == w)) =
      s.words.filter (fun r => !(r.word == w)) :=
  update_word_status_frame_aux s w st

/-- C9 counterexample: a pure-whitespace sentence paired with the valid
lemma "run" is not trimmed or skipped — a Context row holding the
whitespace sentence is inserted and `context_inserted` is true. -/
theorem whitespace_sentence_inserted_counterexample :
    ((upsert_word_with_context_tx (Store.mk [] [] 1 1) "run" " " 0).map
      (fun p => (p.2.context_inserted, p.1.contexts.map (fun c => c.sentence)))) =
      some (true, [" "]) ∧
    " ".data.all Char.isWhitespace = true := by decide

/-- C9 (amended): `_upsert_word_with_context` never trims sentences: a
pure-whitespace sentence novel for the lemma is stored verbatim as a
Context row with `context_inserted = true`, while the Word upsert proceeds
as usual (exactly one of created / frequency_updated, frequency + 1). -/
theorem whitespace_sentence_stored_verbatim (s : Store) (l sen : String) (now : Nat)
    (_hws : sen.data.all Char.isWhitespace = true) (_hne : sen ≠ "")
    (hfresh : ctxFresh s l sen = true) :
    ∃ s' r wid, upsert_word_with_context_tx s l sen now = some (s', r) ∧
      r.context_inserted = true ∧ widOf s' l = some wid ∧
      (∃ c ∈ s'.contexts, c.word_id = wid ∧ c.sentence = sen) ∧
      r.created ≠ r.frequency_updated ∧ freqOf s' l = freqOf s l + 1 := by
  obtain ⟨s', r, wid, h1, h2, h3, -, h5⟩ := ctx_first s l sen now hfresh
  obtain ⟨s2, r2, h1', hx, hf⟩ := freq_step s l sen now
  rw [h1] at h1'
  obtain ⟨hs, hr⟩ := Prod.mk.injEq _ _ _ _ ▸ Option.some.inj h1'
  refine ⟨s', r, wid, h1, h2, h3, h5, ?_, ?_⟩
  · rw [hr]
    exact hx
  · rw [hs]
    exact hf

theorem whitespace_sentence_stored_verbatim_witness :
    ∃ s' r wid, upsert_word_with_context_tx (Store.mk [] [] 1 1) "run" " " 0 =
        some (s', r) ∧
      r.context_inserted = true ∧ widOf s' "run" = some wid ∧
      (∃ c ∈ s'.contexts, c.word_id = wid ∧ c.sentence = " ") ∧
      r.created ≠ r.frequency_updated ∧
      freqOf s' "run" = freqOf (Store.mk [] [] 1 1) "run" + 1 :=
  whitespace_sentence_stored_verbatim (Store.mk [] [] 1 1) "run" " " 0
    (by decide) (by decide) (by decide)

/-- C10: `WordWithContexts.add_context` is idempotent on context ids —
adding a context whose id is already present leaves the aggregate
unchanged — and any sequence of `add_context` calls starting from an
aggregate with pairwise-distinct context ids keeps the ids pairwise
distinct. -/
theorem add_context_id_idempotent_distinct (a : WordWithContexts) (c : Context)
    (cs : List Context)
    (h : a.contexts.Pairwise (fun x y => x.id ≠ y.id)) :
    ((∃ e ∈ a.contexts, e.id = c.id) → a.add_context c = a) ∧
    ((cs.foldl WordWithContexts.add_context a).contexts).Pairwise
      (fun x y => x.id ≠ y.id) :=
  ⟨fun hmem => add_context_of_mem_id a c hmem,
   foldl_add_context_pairwise cs a h⟩

theorem add_context_id_idempotent_distinct_witness :
    ((∃ e ∈ (WordWithContexts.mk (Word.mk 1 "run" 1 WordStatus.unmastered 0 0)
        [Context.mk 1 1 "I run fast.", Context.mk 2 1 "She runs daily."]).contexts,
        e.id = (Context.mk 1 1 "Replay.").id) →
      (WordWithContexts.mk (Word.mk 1 "run" 1 WordStatus.unmastered 0 0)
        [Context.mk 1 1 "I run fast.", Context.mk 2 1 "She runs daily."]).add_context
          (Context.mk 1 1 "Replay.") =
      WordWithContexts.mk (Word.mk 1 "run" 1 WordStatus.unmastered 0 0)
        [Context.mk 1 1 "I run fast.", Context.mk 2 1 "She runs daily."]) ∧
    (([Context.mk 1 1 "Replay.", Context.mk 3 1 "Third."].foldl
        WordWithContexts.add_context
        (WordWithContexts.mk (Word.mk 1 "run" 1 WordStatus.unmastered 0 0)
          [Context.mk 1 1 "I run fast.", Context.mk 2 1 "She runs daily."])).contexts).Pairwise
      (fun x y => x.id ≠ y.id) :=
  add_context_id_idempotent_distinct
    (WordWithContexts.mk (Word.mk 1 "run" 1 WordStatus.unmastered 0 0)
      [Context.mk 1 1 "I run fast.", Context.mk 2 1 "She runs daily."])
    (Context.mk 1 1 "Replay.")
    [Context.mk 1 1 "Replay.", Context.mk 3 1 "Third."]
    (by decide)

end NotionVocab
